import Mathlib

/-!
Verification of `csv_to_xlsx.py` (schulbewerbung-de).

The Python source is shallowly embedded: strings are Lean `String`s
(manipulated through structural-recursive helpers over their character
lists), Python dicts become association lists or explicit counter
functions, values that may be `str`, `int` or `float` become the `Value`
inductive, and code that can raise becomes `Except`/`Option`.
-/

set_option maxRecDepth 4096

/-! ### Python string primitives -/

/-- The whitespace characters stripped by Python `str.strip()` (ASCII part). -/
def pySpace (c : Char) : Bool :=
  c = ' ' || c = '\t' || c = '\n' || c = '\r' || c = '\x0b' || c = '\x0c'

/-- Python `str.strip()` on a character list: drop whitespace from both ends. -/
def pyStripList (l : List Char) : List Char :=
  ((l.dropWhile pySpace).reverse.dropWhile pySpace).reverse

/-- Python `str.strip()`. -/
def pyStrip (s : String) : String := ⟨pyStripList s.data⟩

/-- Python `str.split(sep)` for a one-character separator (keeps empty pieces),
as used by `field_content.split("\n")`. -/
def splitCharList (sep : Char) : List Char → List (List Char)
  | [] => [[]]
  | c :: rest =>
    if c = sep then [] :: splitCharList sep rest
    else
      match splitCharList sep rest with
      | [] => [[c]]
      | g :: gs => (c :: g) :: gs

/-- The line split `field_content.split("\n")`. -/
def splitLines (s : String) : List String :=
  (splitCharList '\n' s.data).map (fun l => ⟨l⟩)

/-- Split a character list at the first occurrence of `sep`
(`none` when `sep` does not occur). Models `sep in line` plus
`line.split(sep, 1)`. -/
def splitFirstAux (sep : List Char) : List Char → Option (List Char × List Char)
  | [] => none
  | c :: rest =>
    if sep.isPrefixOf (c :: rest) then some ([], (c :: rest).drop sep.length)
    else
      match splitFirstAux sep rest with
      | none => none
      | some (pre, post) => some (c :: pre, post)

/-- Python `line.split(sep, 1)` returning the two pieces, `none` when
`sep not in line`. -/
def splitFirst (sep s : String) : Option (String × String) :=
  (splitFirstAux sep.data s.data).map (fun p => (⟨p.1⟩, ⟨p.2⟩))

/-- Python `s.startswith(p)`. -/
def pyStartsWith (s p : String) : Bool :=
  p.data.isPrefixOf s.data

/-- Numeric value of a decimal digit character. -/
def digitVal (c : Char) : Nat := c.toNat - 48

/-- Value of a most-significant-first decimal digit list. -/
def valOfDigits (l : List Char) : Nat :=
  l.foldl (fun a c => 10 * a + digitVal c) 0

/-- Parse a nonempty all-digit character list. -/
def decDigits? (l : List Char) : Option Nat :=
  if l ≠ [] ∧ l.all Char.isDigit then some (valOfDigits l) else none

/-- Python `int(s)` for strings: optional surrounding whitespace, optional
sign, a nonempty run of decimal digits (digit-group underscores are not
modelled). `none` models `ValueError`. -/
def pyInt (s : String) : Option Int :=
  match pyStripList s.data with
  | '+' :: rest => (decDigits? rest).map Int.ofNat
  | '-' :: rest => (decDigits? rest).map (fun n => -(n : Int))
  | l => (decDigits? l).map Int.ofNat

/-- Split a character list at the first `'e'`/`'E'` (exponent marker). -/
def splitExpChar : List Char → List Char × Option (List Char)
  | [] => ([], none)
  | c :: rest =>
    if c = 'e' || c = 'E' then ([], some rest)
    else
      let p := splitExpChar rest
      (c :: p.1, p.2)

/-- A valid float mantissa: `digits`, `digits.digits?`, or `.digits`. -/
def isMantissa (l : List Char) : Bool :=
  match splitFirstAux ['.'] l with
  | none => decide (l ≠ []) && l.all Char.isDigit
  | some (ip, fp) =>
    (decide (ip ≠ []) || decide (fp ≠ [])) && ip.all Char.isDigit && fp.all Char.isDigit

/-- An optionally signed nonempty digit run (float exponent part). -/
def isSignedDigits (l : List Char) : Bool :=
  match l with
  | '+' :: r => decide (r ≠ []) && r.all Char.isDigit
  | '-' :: r => decide (r ≠ []) && r.all Char.isDigit
  | r => decide (r ≠ []) && r.all Char.isDigit

/-- Syntactic validity of Python `float(s)` (finite literals, `inf`,
`infinity`, `nan`; case-insensitive). Only validity is modelled, not the
floating-point value. -/
def isPyFloat (s : String) : Bool :=
  let l := pyStripList s.data
  let body := match l with
    | '+' :: r => r
    | '-' :: r => r
    | r => r
  let lower := body.map Char.toLower
  if lower = "inf".data || lower = "infinity".data || lower = "nan".data then true
  else
    match splitExpChar body with
    | (m, none) => isMantissa m
    | (m, some e) => isMantissa m && isSignedDigits e

/-! ### Values and constants from the source -/

/-- A Python value appearing in the records pipeline: a string, an `int`,
or a `float` (kept as its literal text, since no claim depends on
floating-point arithmetic). -/
inductive Value where
  | str (s : String)
  | int (n : Int)
  | float (lit : String)
deriving DecidableEq

def GRADES_COLUMN : String := "BewerbungenZusatzfragenBeantworteteFragenPflicht"

def GROUP_COLUMN : String := "Schüler:in Bildungsangebot Vollqualifizierter Schlüssel"

def BASE_FIELDS : List (String × String) :=
  [("Schüler:in Anrede Bezeichnung", "Anrede"),
   ("Schüler:in Name", "Name"),
   ("Schüler:in Vorname", "Vorname"),
   ("Schüler:in Geburtsdatum", "Geburtsdatum"),
   ("Schüler:in Sonderpädagogischer Förderbedarf", "Sonderpäd. Förderbedarf"),
   ("Schüler:in Bewerbung Prioritaetsrang", "Rang")]

def FG_EXTRA_FIELD : String × String :=
  ("Schüler:in abgebende Schule Schulgliederung", "Schulgliederung")

def BEWERTUNG_KEY : String := "Bitte geben Sie die Bewertung vom Zeugnis ein."

/-- The dict `BEWERTUNG_RENAME` (1 renamed to `AV`, 2 to `SV`) as a partial map. -/
def BEWERTUNG_RENAME (n : Nat) : Option String :=
  if n = 1 then some "AV" else if n = 2 then some "SV" else none

def BEWERTUNG_WERTE : List (String × Int) :=
  [("verdient besondere Anerkennung", 10),
   ("entspricht den Erwartungen in vollem Umfang", 20),
   ("entspricht den Erwartungen", 30),
   ("entspricht den Erwartungen mit Einschränkungen", 40),
   ("entspricht nicht den Erwartungen", 50)]

/-- First-match association-list lookup (Python dict lookup; dict keys are
unique so first match is the match). -/
def lookupAssoc {β : Type} (l : List (String × β)) (k : String) : Option β :=
  match l with
  | [] => none
  | (a, b) :: rest => if a = k then some b else lookupAssoc rest k

/-- Dict update `seen[key] = seen.get(key, 0) + 1` on a counter function. -/
def bumpCount (σ : String → Nat) (k : String) : String → Nat :=
  fun x => if x = k then σ k + 1 else σ x

/-! ### `parse_answers` -/

/-- One iteration of the `for line in field_content.split("\n")` loop of
`parse_answers`: state is `(results, seen)`. Lines that are blank after
stripping, or lack the `": "` separator, leave the state unchanged. -/
def parseStep (acc : List (String × Value) × (String → Nat)) (rawLine : String) :
    List (String × Value) × (String → Nat) :=
  match splitFirst ": " (pyStrip rawLine) with
  | none => acc
  | some (k0, v0) =>
    let key := pyStrip k0
    let value := pyStrip v0
    let count := acc.2 key + 1
    let seen' := bumpCount acc.2 key
    if key = BEWERTUNG_KEY then
      let col_name :=
        match BEWERTUNG_RENAME count with
        | some nm => nm
        | none => "Bewertung (" ++ Nat.repr count ++ ")"
      let value' :=
        match lookupAssoc BEWERTUNG_WERTE value with
        | some n => Value.int n
        | none => Value.str value
      (acc.1 ++ [(col_name, value')], seen')
    else
      (acc.1 ++ [(if count = 1 then key else key ++ " (" ++ Nat.repr count ++ ")",
                  Value.str value)], seen')

/-- Python `parse_answers(field_content)`: decompose a multi-line `key: value`
field into (column-name, value) pairs, numbering repeated keys. -/
def parse_answers (field_content : String) : List (String × Value) :=
  if pyStrip field_content = "" then []
  else ((splitLines field_content).foldl parseStep ([], fun _ => 0)).1


/-! ### Specification-level decomposition of `parse_answers`

Modelled from the spec: a line contributes a (trimmed key, trimmed value)
pair exactly when it contains the `": "` separator after stripping;
occurrence numbers are counted over the kept lines only; the column name
and the value remapping are functions of the key, the occurrence number
and the value. `parse_answers` is proved equal to this decomposition. -/

/-- The (key, value) pair one raw line contributes, if it is kept. -/
def lineEntry (rawLine : String) : Option (String × String) :=
  match splitFirst ": " (pyStrip rawLine) with
  | none => none
  | some (k0, v0) => some (pyStrip k0, pyStrip v0)

/-- The kept (key, value) pairs of a field, in line order. -/
def validEntries (s : String) : List (String × String) :=
  (splitLines s).filterMap lineEntry

/-- Annotate each kept pair with its occurrence number (per key, starting
from the counter state `σ`). -/
def occAnnotate (σ : String → Nat) : List (String × String) → List (String × String × Nat)
  | [] => []
  | (k, v) :: rest => (k, v, σ k + 1) :: occAnnotate (bumpCount σ k) rest

/-- Output column name for key `k` at occurrence `n`. -/
def colNameFor (k : String) (n : Nat) : String :=
  if k = BEWERTUNG_KEY then
    match BEWERTUNG_RENAME n with
    | some nm => nm
    | none => "Bewertung (" ++ Nat.repr n ++ ")"
  else if n = 1 then k else k ++ " (" ++ Nat.repr n ++ ")"

/-- Output value for key `k` with (trimmed) textual value `v`. -/
def valueFor (k v : String) : Value :=
  if k = BEWERTUNG_KEY then
    match lookupAssoc BEWERTUNG_WERTE v with
    | some n => Value.int n
    | none => Value.str v
  else Value.str v

/-- Render one occurrence-annotated entry to its output pair. -/
def renderEntry (e : String × String × Nat) : String × Value :=
  (colNameFor e.1 e.2.2, valueFor e.1 e.2.1)

/-- The spec-level description of `parse_answers`. -/
def answersSpec (s : String) : List (String × Value) :=
  (occAnnotate (fun _ => 0) (validEntries s)).map renderEntry

/-! ### Records -/

/-- A CSV record: one row as its header-to-value mapping.  `csv.DictReader`
yields dicts whose keys are the (unique) header fields, so a first-match
association list is a faithful model. -/
abbrev Record := List (String × String)

/-- Python `rec.get(field, default)`. -/
def recGet (r : Record) (k d : String) : String := (lookupAssoc r k).getD d

/-! ### `write_xlsx` -/

/-- The schema `base_fields = list(BASE_FIELDS)`, with `FG_EXTRA_FIELD` inserted at index 4 when `is_fg`. -/
def base_fields (is_fg : Bool) : List (String × String) :=
  if is_fg then BASE_FIELDS.take 4 ++ FG_EXTRA_FIELD :: BASE_FIELDS.drop 4 else BASE_FIELDS

/-- The dict `FIELD_TRANSFORMS`: the one per-field display transform. -/
def FIELD_TRANSFORMS (field : String) : Option (String → String) :=
  if field = "Schüler:in Sonderpädagogischer Förderbedarf" then
    some (fun v => if v = "J" then "X" else "")
  else none

/-- The decomposed column names of one record's free-text field. -/
def recNames (rec : Record) : List String :=
  (parse_answers (recGet rec GRADES_COLUMN "")).map Prod.fst

/-- The `all_answer_cols` accumulation loop of `write_xlsx`. -/
def all_answer_cols (records : List Record) : List String :=
  records.foldl (fun acc rec =>
    (parse_answers (recGet rec GRADES_COLUMN "")).foldl
      (fun acc2 cv => if cv.1 ∈ acc2 then acc2 else acc2 ++ [cv.1]) acc) []

/-- The header row of the sheet: base-field labels then answer columns. -/
def header_labels (is_fg : Bool) (records : List Record) : List String :=
  (base_fields is_fg).map Prod.snd ++ all_answer_cols records

/-- Lookup in `dict(pairs)`: on duplicate keys the later pair wins. -/
def dictLast (l : List (String × Value)) (k : String) : Option Value :=
  lookupAssoc l.reverse k

/-- The `try: value = int(value) ... except: try: value = float(value)`
coercion of answer-cell values: keep an `int`, parse a string as `int`,
else as `float`, else leave the text unchanged. -/
def coerceCell (v : Value) : Value :=
  match v with
  | Value.int n => Value.int n
  | Value.float lit => Value.float lit
  | Value.str s =>
    match pyInt s with
    | some n => Value.int n
    | none => if isPyFloat s then Value.float s else Value.str s

/-- The value written to answer-column `col` of a record's data row
(`answer_dict.get(col_name, "")` followed by the numeric coercion). -/
def cellValue (rec : Record) (col : String) : Value :=
  coerceCell ((dictLast (parse_answers (recGet rec GRADES_COLUMN "")) col).getD (Value.str ""))

/-! ### Sorting (Python's stable sort with a key function) -/

/-- Python's stable `list.sort`/`sorted` with key function `key`:
`List.mergeSort` (stable) under the decidable total preorder induced by
the key. -/
def sortByKey {α κ : Type} [LinearOrder κ] (key : α → κ) (l : List α) : List α :=
  l.mergeSort (fun a b => decide (key a ≤ key b))

/-- Python `.lower()`, modelled by `String.toLower` (ASCII case mapping). -/
def pyLower (s : String) : String := s.toLower

/-- Sort key of `process_csv`'s per-group sort: (surname, given name),
lower-cased, compared lexicographically as Python compares tuples. -/
def nameKey (r : Record) : Lex (String × String) :=
  toLex (pyLower (recGet r "Schüler:in Name" ""), pyLower (recGet r "Schüler:in Vorname" ""))

/-- The per-group sort `group_records.sort(...)` by lower-cased (surname, given name). -/
def sortRecordsByName (rs : List Record) : List Record := sortByKey nameKey rs

/-! ### Grouping (`process_csv`) -/

/-- The group key `rec.get(GROUP_COLUMN, "").strip() or "unbekannt"`. -/
def groupKeyOf (rec : Record) : String :=
  let t := pyStrip (recGet rec GROUP_COLUMN "")
  if t = "" then "unbekannt" else t

/-- Append a record to its group's bucket, creating the bucket at the end
on first sight (Python dicts preserve insertion order). -/
def addToBucket (gs : List (String × List Record)) (k : String) (r : Record) :
    List (String × List Record) :=
  match gs with
  | [] => [(k, [r])]
  | (k', l) :: rest =>
    if k' = k then (k', l ++ [r]) :: rest else (k', l) :: addToBucket rest k r

/-- The `groups = defaultdict(list); for rec in records: ...` loop. -/
def bucketsOf (records : List Record) : List (String × List Record) :=
  records.foldl (fun gs rec => addToBucket gs (groupKeyOf rec) rec) []

/-- The records collected so far for group `g` (empty when absent). -/
def getBucket (gs : List (String × List Record)) (g : String) : List Record :=
  (lookupAssoc gs g).getD []

/-- The loop over `sorted(groups.items())` (group keys are distinct, so tuple comparison
reduces to key comparison) followed by the per-group name sort. -/
def process_groups (records : List Record) : List (String × List Record) :=
  (sortByKey Prod.fst (bucketsOf records)).map (fun g => (g.1, sortRecordsByName g.2))

/-- The flag `is_fg = bildungsgang.startswith("FG")`. -/
def is_fg_of (bildungsgang : String) : Bool := pyStartsWith bildungsgang "FG"

/-! ### `write_latex_pdf` sort -/

def RANG_FIELD : String := "Schüler:in Bewerbung Prioritaetsrang"

/-- The rank key `int(r.get(RANG_FIELD, "") or 999)`: an absent or empty rank falls back
to the sentinel `999` (the empty string is falsy); a non-empty rank is
parsed by `int`, and `ValueError` is modelled as `Except.error`. -/
def latexRank (r : Record) : Except Unit Int :=
  let s := recGet r RANG_FIELD ""
  if s = "" then Except.ok 999
  else
    match pyInt s with
    | some n => Except.ok n
    | none => Except.error ()

/-- The triple sort key of `write_latex_pdf` (rank, surname, given name),
lexicographic as Python compares tuples. -/
def latexKey (r : Record) : Lex (Int × Lex (String × String)) :=
  toLex ((latexRank r).toOption.getD 999,
    toLex (pyLower (recGet r "Schüler:in Name" ""), pyLower (recGet r "Schüler:in Vorname" "")))

/-- Evaluate `f` over a list left-to-right, propagating the first
exception (the effect of Python evaluating the sort key per element). -/
def exceptMapM {α β : Type} (f : α → Except Unit β) : List α → Except Unit (List β)
  | [] => Except.ok []
  | a :: l =>
    match f a with
    | Except.error e => Except.error e
    | Except.ok b =>
      match exceptMapM f l with
      | Except.error e => Except.error e
      | Except.ok bs => Except.ok (b :: bs)

/-- The `records = sorted(records, key=lambda r: (int(...), ...))` step of
`write_latex_pdf`: computing the keys raises iff some record has a
non-empty unparseable rank. -/
def latexSorted (rs : List Record) : Except Unit (List Record) :=
  match exceptMapM latexRank rs with
  | Except.error e => Except.error e
  | Except.ok _ => Except.ok (sortByKey latexKey rs)

/-! ### `read_csv` (encoding fallback) -/

abbrev Byte := Fin 256

/-- latin-1: every byte value is the code point of the decoded character;
decoding never fails. -/
def decodeLatin1 (bs : List Byte) : Option String :=
  some ⟨bs.map (fun b => Char.ofNat b.val)⟩

/-- A UTF-8 continuation byte. -/
def contByte (b : Byte) : Bool := 0x80 ≤ b.val && b.val ≤ 0xBF

/-- Strict UTF-8 decoding of a byte list (rejecting truncated sequences,
bad continuation bytes, overlong forms, surrogates and out-of-range code
points). -/
def utf8Decode : List Byte → Option (List Char)
  | [] => some []
  | b :: rest =>
    if b.val < 0x80 then
      (utf8Decode rest).map (fun cs => Char.ofNat b.val :: cs)
    else if 0xC2 ≤ b.val && b.val ≤ 0xDF then
      match rest with
      | b2 :: rest2 =>
        if contByte b2 then
          (utf8Decode rest2).map
            (fun cs => Char.ofNat ((b.val - 0xC0) * 64 + (b2.val - 0x80)) :: cs)
        else none
      | [] => none
    else if 0xE0 ≤ b.val && b.val ≤ 0xEF then
      match rest with
      | b2 :: b3 :: rest2 =>
        if contByte b2 && contByte b3 then
          let cp := (b.val - 0xE0) * 4096 + (b2.val - 0x80) * 64 + (b3.val - 0x80)
          if 0x800 ≤ cp ∧ ¬ (0xD800 ≤ cp ∧ cp ≤ 0xDFFF) then
            (utf8Decode rest2).map (fun cs => Char.ofNat cp :: cs)
          else none
        else none
      | _ => none
    else if 0xF0 ≤ b.val && b.val ≤ 0xF4 then
      match rest with
      | b2 :: b3 :: b4 :: rest2 =>
        if contByte b2 && contByte b3 && contByte b4 then
          let cp := (b.val - 0xF0) * 262144 + (b2.val - 0x80) * 4096
            + (b3.val - 0x80) * 64 + (b4.val - 0x80)
          if 0x10000 ≤ cp ∧ cp ≤ 0x10FFFF then
            (utf8Decode rest2).map (fun cs => Char.ofNat cp :: cs)
          else none
        else none
      | _ => none
    else none

/-- Encoding `utf-8-sig`: strip one leading byte-order mark, then UTF-8. -/
def stripBOM (bs : List Byte) : List Byte :=
  match bs with
  | b1 :: b2 :: b3 :: rest =>
    if b1.val = 0xEF ∧ b2.val = 0xBB ∧ b3.val = 0xBF then rest else bs
  | _ => bs

inductive Encoding where
  | utf8sig
  | utf8
  | latin1
deriving DecidableEq

def decodeBytes : Encoding → List Byte → Option String
  | Encoding.utf8sig, bs => (utf8Decode (stripBOM bs)).map (fun cs => ⟨cs⟩)
  | Encoding.utf8, bs => (utf8Decode bs).map (fun cs => ⟨cs⟩)
  | Encoding.latin1, bs => decodeLatin1 bs

/-- State of the character scan of the CSV tokenizer. -/
structure CsvState where
  inQ : Bool
  field : List Char
  row : List String
  rows : List (List String)

/-- One character of quote-aware CSV scanning (delimiter `;`, quote `"`;
the doubled-quote escape and `\r` handling are simplified — no claim
depends on them). -/
def csvStep (st : CsvState) (c : Char) : CsvState :=
  if st.inQ then
    if c = '"' then { st with inQ := false }
    else { st with field := st.field ++ [c] }
  else
    if c = '"' then { st with inQ := true }
    else if c = ';' then { st with field := [], row := st.row ++ [⟨st.field⟩] }
    else if c = '\n' then
      { st with field := [], row := [], rows := st.rows ++ [st.row ++ [⟨st.field⟩]] }
    else { st with field := st.field ++ [c] }

/-- All rows of the CSV text (a trailing row without final newline counts). -/
def csvRows (text : String) : List (List String) :=
  let st := text.data.foldl csvStep ⟨false, [], [], []⟩
  if st.field = [] ∧ st.row = [] then st.rows else st.rows ++ [st.row ++ [⟨st.field⟩]]

/-- The reader `list(csv.DictReader(...))`: first row is the header; each data row is
zipped with it. -/
def read_records (text : String) : List Record :=
  match csvRows text with
  | [] => []
  | header :: dataRows => dataRows.map (fun row => header.zip row)

def encodings : List Encoding := [Encoding.utf8sig, Encoding.utf8, Encoding.latin1]

/-- The `for enc in encodings: try ... except` loop of `read_csv`;
`Except.error ()` is the final `RuntimeError`. -/
def tryEncodings (bs : List Byte) : List Encoding → Except Unit (List Record)
  | [] => Except.error ()
  | e :: rest =>
    match decodeBytes e bs with
    | some text => Except.ok (read_records text)
    | none => tryEncodings bs rest

/-- Model of `read_csv` on raw file bytes. -/
def read_csv (bs : List Byte) : Except Unit (List Record) :=
  tryEncodings bs encodings

/-- A key that cannot collide with the numbering/renaming scheme:
not the grading key, and containing no `'('`. -/
def plainKey (k : String) : Prop := k ≠ BEWERTUNG_KEY ∧ '(' ∉ k.data

/-! ### Spec-side ordered union -/

/-- Modelled from the spec: the ordered union, in first-seen order, of a
stream of column names. -/
def firstSeenDedup (l : List String) : List String :=
  l.foldl (fun acc c => if c ∈ acc then acc else acc ++ [c]) []

theorem foldl_parseStep (lines : List String) (res : List (String × Value)) (σ : String → Nat) :
    (lines.foldl parseStep (res, σ)).1
      = res ++ (occAnnotate σ (lines.filterMap lineEntry)).map renderEntry := by
  induction lines generalizing res σ with
  | nil => simp [occAnnotate]
  | cons line rest ih =>
    simp only [List.foldl_cons, List.filterMap_cons]
    cases hsf : splitFirst ": " (pyStrip line) with
    | none =>
      have h1 : parseStep (res, σ) line = (res, σ) := by
        simp [parseStep, hsf]
      have h2 : lineEntry line = none := by
        simp [lineEntry, hsf]
      rw [h1, h2, ih]
    | some kv =>
      obtain ⟨k0, v0⟩ := kv
      have h2 : lineEntry line = some (pyStrip k0, pyStrip v0) := by
        simp [lineEntry, hsf]
      have h1 : parseStep (res, σ) line
          = (res ++ [renderEntry (pyStrip k0, pyStrip v0, σ (pyStrip k0) + 1)],
             bumpCount σ (pyStrip k0)) := by
        simp only [parseStep, hsf, renderEntry, colNameFor, valueFor]
        by_cases hk : pyStrip k0 = BEWERTUNG_KEY <;> simp [hk]
      rw [h1, h2, ih]
      simp [occAnnotate]

theorem dropWhile_eq_nil_of_all {α} {p : α → Bool} {l : List α} (h : ∀ c ∈ l, p c) :
    l.dropWhile p = [] := by
  induction l with
  | nil => rfl
  | cons a l ih =>
    rw [List.dropWhile_cons_of_pos (h a (List.mem_cons_self a l))]
    exact ih (fun c hc => h c (List.mem_cons_of_mem a hc))

theorem all_of_dropWhile_eq_nil {α} {p : α → Bool} {l : List α} (h : l.dropWhile p = []) :
    ∀ c ∈ l, p c := by
  induction l with
  | nil => intro c hc; exact absurd hc (List.not_mem_nil c)
  | cons a l ih =>
    by_cases hp : p a
    · rw [List.dropWhile_cons_of_pos hp] at h
      intro c hc
      rcases List.mem_cons.mp hc with rfl | hc
      · exact hp
      · exact ih h c hc
    · rw [List.dropWhile_cons_of_neg hp] at h
      exact absurd h (List.cons_ne_nil a _)

theorem of_mem_takeWhile {α} {p : α → Bool} {l : List α} {c : α} (h : c ∈ l.takeWhile p) :
    p c := by
  induction l with
  | nil => simp [List.takeWhile] at h
  | cons a l ih =>
    rw [List.takeWhile_cons] at h
    by_cases hp : p a
    · simp only [hp, if_true] at h
      rcases List.mem_cons.mp h with rfl | h
      · exact hp
      · exact ih h
    · simp [hp] at h

theorem pyStripList_eq_nil_of_all {l : List Char} (h : ∀ c ∈ l, pySpace c) :
    pyStripList l = [] := by
  unfold pyStripList
  rw [dropWhile_eq_nil_of_all h]
  rfl

theorem all_of_pyStripList_eq_nil {l : List Char} (h : pyStripList l = []) :
    ∀ c ∈ l, pySpace c := by
  unfold pyStripList at h
  rw [List.reverse_eq_nil_iff] at h
  have h2 : ∀ c ∈ (l.dropWhile pySpace).reverse, pySpace c := all_of_dropWhile_eq_nil h
  have h3 : ∀ c ∈ l.dropWhile pySpace, pySpace c :=
    fun c hc => h2 c (List.mem_reverse.mpr hc)
  intro c hc
  rw [← List.takeWhile_append_dropWhile pySpace l] at hc
  rcases List.mem_append.mp hc with h4 | h4
  · exact of_mem_takeWhile h4
  · exact h3 c h4

theorem mem_of_mem_splitCharList {sep : Char} :
    ∀ {l g : List Char}, g ∈ splitCharList sep l → ∀ {c}, c ∈ g → c ∈ l := by
  intro l
  induction l with
  | nil =>
    intro g hg c hc
    simp only [splitCharList, List.mem_singleton] at hg
    subst hg
    simp at hc
  | cons a rest ih =>
    intro g hg c hc
    by_cases ha : a = sep
    · simp only [splitCharList, ha, if_true] at hg
      rcases List.mem_cons.mp hg with rfl | hg
      · simp at hc
      · exact List.mem_cons_of_mem _ (ih hg hc)
    · simp only [splitCharList, ha, if_false] at hg
      cases hsp : splitCharList sep rest with
      | nil =>
        rw [hsp] at hg
        simp only [List.mem_singleton] at hg
        subst hg
        rcases List.mem_singleton.mp hc with rfl
        exact List.mem_cons_self _ _
      | cons g0 gs =>
        rw [hsp] at hg
        rcases List.mem_cons.mp hg with rfl | hg
        · rcases List.mem_cons.mp hc with rfl | hc
          · exact List.mem_cons_self _ _
          · exact List.mem_cons_of_mem _ (ih (hsp ▸ List.mem_cons_self g0 gs) hc)
        · exact List.mem_cons_of_mem _ (ih (hsp ▸ List.mem_cons_of_mem g0 hg) hc)

theorem lineEntry_of_strip_empty {line : String} (h : pyStrip line = "") :
    lineEntry line = none := by
  unfold lineEntry
  rw [h]
  rfl

/-- Characterisation: `parse_answers` equals its spec-level decomposition on every input. -/
theorem parse_answers_eq_spec (s : String) : parse_answers s = answersSpec s := by
  unfold parse_answers
  split
  case isTrue h =>
    have hdata : pyStripList s.data = [] := congrArg String.data h
    have hall : ∀ c ∈ s.data, pySpace c := all_of_pyStripList_eq_nil hdata
    have hnone : ∀ line ∈ splitLines s, lineEntry line = none := by
      intro line hline
      rw [splitLines] at hline
      obtain ⟨g, hg, rfl⟩ := List.mem_map.mp hline
      apply lineEntry_of_strip_empty
      show (⟨pyStripList g⟩ : String) = ""
      have hgnil : pyStripList g = [] :=
        pyStripList_eq_nil_of_all (fun c hc => hall c (mem_of_mem_splitCharList hg hc))
      rw [hgnil]
    have : validEntries s = [] := by
      rw [validEntries, List.filterMap_eq_nil_iff]
      exact hnone
    rw [answersSpec, this]
    rfl
  case isFalse h =>
    rw [foldl_parseStep]
    rfl

/-! ### Decimal representation facts (for the numbering scheme) -/

theorem toDigitsCore_shift (fuel : Nat) : ∀ (n : Nat) (ds : List Char),
    Nat.toDigitsCore 10 fuel n ds = Nat.toDigitsCore 10 fuel n [] ++ ds := by
  induction fuel with
  | zero => intro n ds; rfl
  | succ fuel ih =>
    intro n ds
    simp only [Nat.toDigitsCore]
    by_cases h : n / 10 = 0
    · rw [if_pos h, if_pos h]
      rfl
    · rw [if_neg h, if_neg h]
      rw [ih (n / 10) (Nat.digitChar (n % 10) :: ds),
          ih (n / 10) [Nat.digitChar (n % 10)]]
      simp

theorem valOfDigits_append (l : List Char) (c : Char) :
    valOfDigits (l ++ [c]) = 10 * valOfDigits l + digitVal c := by
  unfold valOfDigits
  rw [List.foldl_append]
  rfl

theorem digitVal_digitChar {m : Nat} (h : m < 10) : digitVal (Nat.digitChar m) = m := by
  interval_cases m <;> rfl

theorem valOfDigits_toDigitsCore : ∀ (fuel n : Nat), n < fuel →
    valOfDigits (Nat.toDigitsCore 10 fuel n []) = n := by
  intro fuel
  induction fuel with
  | zero => intro n h; exact absurd h (Nat.not_lt_zero n)
  | succ fuel ih =>
    intro n h
    simp only [Nat.toDigitsCore]
    by_cases h0 : n / 10 = 0
    · rw [if_pos h0]
      have hv : valOfDigits [Nat.digitChar (n % 10)]
          = 10 * 0 + digitVal (Nat.digitChar (n % 10)) := rfl
      rw [hv, digitVal_digitChar (Nat.mod_lt _ (by omega))]
      omega
    · rw [if_neg h0]
      rw [toDigitsCore_shift, valOfDigits_append]
      have h10 : n / 10 < fuel := by omega
      rw [ih (n / 10) h10, digitVal_digitChar (Nat.mod_lt _ (by omega))]
      omega

theorem Nat_repr_inj {m n : Nat} (h : Nat.repr m = Nat.repr n) : m = n := by
  have hd : Nat.toDigitsCore 10 (m + 1) m [] = Nat.toDigitsCore 10 (n + 1) n [] :=
    congrArg String.data h
  have hm := valOfDigits_toDigitsCore (m + 1) m (Nat.lt_succ_self m)
  have hn := valOfDigits_toDigitsCore (n + 1) n (Nat.lt_succ_self n)
  rw [← hm, ← hn, hd]

theorem digitChar_isDigit {m : Nat} (h : m < 10) : (Nat.digitChar m).isDigit := by
  interval_cases m <;> decide

theorem toDigitsCore_digits (fuel : Nat) : ∀ (n : Nat) (ds : List Char),
    (∀ c ∈ ds, c.isDigit) → ∀ c ∈ Nat.toDigitsCore 10 fuel n ds, c.isDigit := by
  induction fuel with
  | zero =>
    intro n ds hds
    simpa [Nat.toDigitsCore] using hds
  | succ fuel ih =>
    intro n ds hds
    simp only [Nat.toDigitsCore]
    by_cases h0 : n / 10 = 0
    · rw [if_pos h0]
      intro c hc
      rcases List.mem_cons.mp hc with rfl | hc
      · exact digitChar_isDigit (Nat.mod_lt _ (by omega))
      · exact hds c hc
    · rw [if_neg h0]
      refine ih (n / 10) _ ?_
      intro c hc
      rcases List.mem_cons.mp hc with rfl | hc
      · exact digitChar_isDigit (Nat.mod_lt _ (by omega))
      · exact hds c hc

theorem repr_no_paren (n : Nat) : '(' ∉ (Nat.repr n).data := by
  intro hmem
  have hmem' : '(' ∈ Nat.toDigitsCore 10 (n + 1) n [] := hmem
  have hdig : ('(' : Char).isDigit :=
    toDigitsCore_digits (n + 1) n [] (by intro c hc; simp at hc) '(' hmem'
  exact absurd hdig (by decide)

/-! ### Injectivity of the column-naming scheme on collision-free keys -/

theorem takeWhile_append_cons {α} (p : α → Bool) (xs : List α) (y : α) (ys : List α)
    (hxs : ∀ c ∈ xs, p c) (hy : p y = false) :
    (xs ++ y :: ys).takeWhile p = xs := by
  induction xs with
  | nil => simp [List.takeWhile_cons, hy]
  | cons a xs ih =>
    rw [List.cons_append, List.takeWhile_cons, hxs a (List.mem_cons_self a xs)]
    simp only [if_true]
    rw [ih (fun c hc => hxs c (List.mem_cons_of_mem a hc))]

theorem numberedName_data (k : String) (n : Nat) :
    (k ++ " (" ++ Nat.repr n ++ ")").data
      = (k.data ++ [' ']) ++ '(' :: ((Nat.repr n).data ++ [')']) := by
  have h1 : (" (" : String).data = [' ', '('] := rfl
  have h2 : (")" : String).data = [')'] := rfl
  simp [String.data_append, h1, h2]

theorem string_ext {s t : String} (h : s.data = t.data) : s = t := by
  cases s
  cases t
  exact congrArg String.mk h

theorem colNameFor_inj {k1 k2 : String} {n1 n2 : Nat}
    (h1 : plainKey k1) (h2 : plainKey k2)
    (heq : colNameFor k1 n1 = colNameFor k2 n2) : k1 = k2 ∧ n1 = n2 := by
  have hparen : ∀ (k : String) (n : Nat),
      '(' ∈ (k ++ " (" ++ Nat.repr n ++ ")").data := by
    intro k n
    rw [numberedName_data]
    exact List.mem_append.mpr (Or.inr (List.mem_cons_self _ _))
  rw [colNameFor, if_neg h1.1] at heq
  rw [colNameFor, if_neg h2.1] at heq
  by_cases e1 : n1 = 1 <;> by_cases e2 : n2 = 1
  · rw [if_pos e1, if_pos e2] at heq
    exact ⟨heq, e1.trans e2.symm⟩
  · rw [if_pos e1, if_neg e2] at heq
    exact absurd (heq ▸ hparen k2 n2) h1.2
  · rw [if_neg e1, if_pos e2] at heq
    exact absurd (heq ▸ hparen k1 n1) h2.2
  · rw [if_neg e1, if_neg e2] at heq
    have hdata := congrArg String.data heq
    rw [numberedName_data, numberedName_data] at hdata
    set p : Char → Bool := fun c => decide (c ≠ '(') with hp
    have hkeep : ∀ (k : String), '(' ∉ k.data → ∀ c ∈ k.data ++ [' '], p c = true := by
      intro k hk c hc
      rcases List.mem_append.mp hc with hc | hc
      · simp only [hp, decide_eq_true_eq]
        intro hcc
        exact hk (hcc ▸ hc)
      · rcases List.mem_singleton.mp hc with rfl
        decide
    have htw := congrArg (List.takeWhile p) hdata
    rw [takeWhile_append_cons p _ '(' _ (hkeep k1 h1.2) (by decide),
        takeWhile_append_cons p _ '(' _ (hkeep k2 h2.2) (by decide)] at htw
    have hkdata : k1.data = k2.data := List.append_cancel_right htw
    have hk : k1 = k2 := string_ext hkdata
    subst hk
    have htail : (Nat.repr n1).data ++ [')'] = (Nat.repr n2).data ++ [')'] :=
      (List.cons_eq_cons.mp (List.append_cancel_left hdata)).2
    have hrepr : (Nat.repr n1).data = (Nat.repr n2).data := List.append_cancel_right htail
    exact ⟨rfl, Nat_repr_inj (string_ext hrepr)⟩

/-! ### Occurrence-annotation facts -/

theorem occAnnotate_key_mem {σ : String → Nat} {l : List (String × String)}
    {e : String × String × Nat} (he : e ∈ occAnnotate σ l) : e.1 ∈ l.map Prod.fst := by
  induction l generalizing σ with
  | nil => simp [occAnnotate] at he
  | cons kv rest ih =>
    obtain ⟨k, v⟩ := kv
    rw [occAnnotate] at he
    rcases List.mem_cons.mp he with rfl | he
    · exact List.mem_cons_self _ _
    · exact List.mem_cons_of_mem _ (ih he)

theorem occAnnotate_occ_gt {σ : String → Nat} {l : List (String × String)}
    {e : String × String × Nat} (he : e ∈ occAnnotate σ l) : σ e.1 < e.2.2 := by
  induction l generalizing σ with
  | nil => simp [occAnnotate] at he
  | cons kv rest ih =>
    obtain ⟨k, v⟩ := kv
    rw [occAnnotate] at he
    rcases List.mem_cons.mp he with rfl | he
    · exact Nat.lt_succ_self _
    · have hmono : σ e.1 ≤ bumpCount σ k e.1 := by
        unfold bumpCount
        by_cases hek : e.1 = k
        · rw [if_pos hek, hek]
          exact Nat.le_succ _
        · rw [if_neg hek]
      exact Nat.lt_of_le_of_lt hmono (ih he)

theorem occAnnotate_pairwise (σ : String → Nat) (l : List (String × String)) :
    (occAnnotate σ l).Pairwise (fun e1 e2 => e1.1 = e2.1 → e1.2.2 < e2.2.2) := by
  induction l generalizing σ with
  | nil => exact List.Pairwise.nil
  | cons kv rest ih =>
    obtain ⟨k, v⟩ := kv
    rw [occAnnotate]
    refine List.Pairwise.cons ?_ (ih (bumpCount σ k))
    intro e he hkey
    have hgt := occAnnotate_occ_gt he
    have : bumpCount σ k e.1 = σ k + 1 := by
      unfold bumpCount
      rw [if_pos hkey.symm]
    rw [this] at hgt
    exact hgt

/-! ### Association-list and sorting lemmas -/

theorem lookupAssoc_eq_none {β : Type} {l : List (String × β)} {k : String}
    (h : k ∉ l.map Prod.fst) : lookupAssoc l k = none := by
  induction l with
  | nil => rfl
  | cons ab rest ih =>
    obtain ⟨a, b⟩ := ab
    rw [lookupAssoc, if_neg, ih]
    · intro hm
      exact h (List.mem_cons_of_mem _ hm)
    · intro hak
      exact h (by rw [List.map_cons]; exact hak ▸ List.mem_cons_self _ _)

theorem lookupAssoc_of_mem_nodup {β : Type} {l : List (String × β)}
    (hnd : (l.map Prod.fst).Nodup) {k : String} {b : β} (hmem : (k, b) ∈ l) :
    lookupAssoc l k = some b := by
  induction l with
  | nil => simp at hmem
  | cons ab rest ih =>
    obtain ⟨a, b'⟩ := ab
    rw [List.map_cons] at hnd
    rcases List.mem_cons.mp hmem with heq | hmem'
    · obtain ⟨rfl, rfl⟩ := Prod.mk.injEq .. ▸ heq.symm
      rw [lookupAssoc, if_pos rfl]
    · rw [lookupAssoc]
      by_cases hak : a = k
      · exfalso
        subst hak
        exact (List.nodup_cons.mp hnd).1 (List.mem_map.mpr ⟨(a, b), hmem', rfl⟩)
      · rw [if_neg hak]
        exact ih (List.nodup_cons.mp hnd).2 hmem'

theorem keyLe_trans {α κ : Type} [LinearOrder κ] (key : α → κ) (a b c : α)
    (h1 : decide (key a ≤ key b) = true) (h2 : decide (key b ≤ key c) = true) :
    decide (key a ≤ key c) = true := by
  rw [decide_eq_true_iff] at h1 h2 ⊢
  exact le_trans h1 h2

theorem keyLe_total {α κ : Type} [LinearOrder κ] (key : α → κ) (a b : α) :
    (decide (key a ≤ key b) || decide (key b ≤ key a)) = true := by
  rcases le_total (key a) (key b) with h | h <;> simp [h]

theorem sortByKey_perm {α κ : Type} [LinearOrder κ] (key : α → κ) (l : List α) :
    (sortByKey key l).Perm l :=
  List.mergeSort_perm l _

theorem sortByKey_pairwise {α κ : Type} [LinearOrder κ] (key : α → κ) (l : List α) :
    (sortByKey key l).Pairwise (fun a b => key a ≤ key b) := by
  have h : (List.mergeSort l (fun a b : α => decide (key a ≤ key b))).Pairwise
      (fun a b => decide (key a ≤ key b) = true) :=
    List.sorted_mergeSort
      (fun a b c h1 h2 => keyLe_trans key a b c h1 h2)
      (fun a b => keyLe_total key a b) l
  exact h.imp (fun hab => decide_eq_true_iff.mp hab)

/-- Stability of the key-function sort, filter form: the subsequence of
elements selected by any predicate on which the key is constant (such as
"the key equals `k`") is unchanged by sorting. -/
theorem sortByKey_filter {α κ : Type} [LinearOrder κ] (key : α → κ) (l : List α)
    (p : α → Bool) (hkp : ∀ a b, p a = true → p b = true → key a = key b) :
    (sortByKey key l).filter p = l.filter p := by
  have hsub : (l.filter p).Sublist l := List.filter_sublist l
  have hpw : (l.filter p).Pairwise (fun a b => decide (key a ≤ key b) = true) := by
    refine List.pairwise_of_forall_mem_list ?_
    intro a ha b hb
    rw [decide_eq_true_iff,
      hkp a b (List.of_mem_filter ha) (List.of_mem_filter hb)]
  have hsub2 : (l.filter p).Sublist (sortByKey key l) :=
    List.sublist_mergeSort (fun a b c h1 h2 => keyLe_trans key a b c h1 h2)
      (fun a b => keyLe_total key a b) hpw hsub
  have hself : (l.filter p).filter p = l.filter p :=
    List.filter_eq_self.mpr (fun a ha => List.of_mem_filter ha)
  have hsub3 : (l.filter p).Sublist ((sortByKey key l).filter p) := by
    have := hsub2.filter p
    rw [hself] at this
    exact this
  have hlen : ((sortByKey key l).filter p).length = (l.filter p).length :=
    ((sortByKey_perm key l).filter p).length_eq
  exact (hsub3.eq_of_length hlen.symm).symm

/-! ### Bucketing lemmas -/

theorem getBucket_addToBucket (gs : List (String × List Record)) (k : String) (r : Record)
    (g : String) :
    getBucket (addToBucket gs k r) g
      = getBucket gs g ++ (if g = k then [r] else []) := by
  induction gs with
  | nil =>
    rw [addToBucket]
    by_cases hgk : g = k
    · subst hgk
      simp only [getBucket, lookupAssoc, if_pos rfl, if_pos rfl]
      rfl
    · have hkg : ¬ k = g := fun h => hgk h.symm
      rw [if_neg hgk]
      simp only [getBucket, lookupAssoc, if_neg hkg]
      rfl
  | cons kv rest ih =>
    obtain ⟨k', l⟩ := kv
    rw [addToBucket]
    by_cases hk : k' = k
    · rw [if_pos hk]
      subst hk
      by_cases hgk : g = k'
      · subst hgk
        rw [if_pos rfl]
        simp only [getBucket, lookupAssoc, if_pos rfl]
        rfl
      · have hkg : ¬ k' = g := fun h => hgk h.symm
        rw [if_neg hgk]
        simp only [getBucket, lookupAssoc, if_neg hkg]
        simp
    · rw [if_neg hk]
      by_cases hgk' : k' = g
      · subst hgk'
        have hgk : ¬ k' = k := hk
        rw [if_neg hgk]
        simp only [getBucket, lookupAssoc, if_pos rfl]
        simp
      · simp only [getBucket, lookupAssoc, if_neg hgk']
        exact ih

theorem getBucket_bucketsOf (records : List Record) (g : String) :
    getBucket (bucketsOf records) g
      = records.filter (fun r => decide (groupKeyOf r = g)) := by
  suffices h : ∀ gs, getBucket
      (records.foldl (fun gs rec => addToBucket gs (groupKeyOf rec) rec) gs) g
      = getBucket gs g ++ records.filter (fun r => decide (groupKeyOf r = g)) by
    have h0 := h []
    rw [bucketsOf, h0]
    simp [getBucket, lookupAssoc]
  induction records with
  | nil => intro gs; simp
  | cons r rest ih =>
    intro gs
    rw [List.foldl_cons, ih, getBucket_addToBucket, List.filter_cons]
    by_cases hg : groupKeyOf r = g
    · have hg' : g = groupKeyOf r := hg.symm
      rw [if_pos hg', if_pos (decide_eq_true hg), List.append_assoc, List.singleton_append]
    · have hg' : ¬ g = groupKeyOf r := fun h => hg h.symm
      rw [if_neg hg', if_neg (fun h => hg (of_decide_eq_true h)), List.append_nil]

theorem keys_addToBucket (gs : List (String × List Record)) (k : String) (r : Record) :
    (addToBucket gs k r).map Prod.fst
      = if k ∈ gs.map Prod.fst then gs.map Prod.fst else gs.map Prod.fst ++ [k] := by
  induction gs with
  | nil => simp [addToBucket]
  | cons kv rest ih =>
    obtain ⟨k', l⟩ := kv
    rw [addToBucket]
    by_cases hk : k' = k
    · subst hk
      simp [List.mem_cons]
    · rw [if_neg hk]
      rw [List.map_cons, List.map_cons, ih]
      by_cases hmem : k ∈ rest.map Prod.fst
      · rw [if_pos hmem, if_pos (List.mem_cons_of_mem _ hmem)]
      · rw [if_neg hmem, if_neg ?_]
        · simp
        · intro hmem'
          rcases List.mem_cons.mp hmem' with heq | hmem''
          · exact hk heq.symm
          · exact hmem hmem''

theorem bucketsOf_keys_nodup (records : List Record) :
    ((bucketsOf records).map Prod.fst).Nodup := by
  suffices h : ∀ gs, (gs.map Prod.fst).Nodup →
      (((records.foldl (fun gs rec => addToBucket gs (groupKeyOf rec) rec) gs)).map
        Prod.fst).Nodup from
    h [] (by simp)
  induction records with
  | nil => intro gs hgs; exact hgs
  | cons r rest ih =>
    intro gs hgs
    rw [List.foldl_cons]
    refine ih _ ?_
    rw [keys_addToBucket]
    by_cases hmem : groupKeyOf r ∈ gs.map Prod.fst
    · rw [if_pos hmem]; exact hgs
    · rw [if_neg hmem]
      simp [List.nodup_append, hgs, hmem]

/-! ### `exceptMapM` lemmas -/

theorem exceptMapM_ok {α β : Type} (f : α → Except Unit β) (l : List α)
    (h : ∀ a ∈ l, (f a).isOk = true) : ∃ ys, exceptMapM f l = Except.ok ys := by
  induction l with
  | nil => exact ⟨[], rfl⟩
  | cons a l ih =>
    rw [exceptMapM]
    cases hfa : f a with
    | error e =>
      have := h a (List.mem_cons_self a l)
      rw [hfa] at this
      simp [Except.isOk, Except.toBool] at this
    | ok b =>
      obtain ⟨ys, hys⟩ := ih (fun x hx => h x (List.mem_cons_of_mem _ hx))
      rw [hys]
      exact ⟨b :: ys, rfl⟩

theorem exceptMapM_error {α β : Type} (f : α → Except Unit β) (l : List α)
    (h : ∃ a ∈ l, (f a).isOk = false) : exceptMapM f l = Except.error () := by
  induction l with
  | nil => simp at h
  | cons a l ih =>
    rw [exceptMapM]
    obtain ⟨x, hx, hfx⟩ := h
    rcases List.mem_cons.mp hx with rfl | hx'
    · cases hfa : f x with
      | error e => cases e; rfl
      | ok b =>
        rw [hfa] at hfx
        simp [Except.isOk, Except.toBool] at hfx
    · cases hfa : f a with
      | error e => cases e; rfl
      | ok b =>
        rw [ih ⟨x, hx', hfx⟩]

/-! ### Claim theorems -/

/-- C10: the Record Reader's fatal "no encoding succeeded" error is
unreachable — for every byte sequence, the last fallback encoding
(latin-1) decodes successfully, so `read_csv` always returns a record
list and never reaches its `RuntimeError`. -/
theorem C10_read_csv_never_fails (bs : List Byte) :
    ∃ recs, read_csv bs = Except.ok recs := by
  rw [read_csv, encodings]
  cases h1 : utf8Decode (stripBOM bs) with
  | some cs =>
    refine ⟨read_records ⟨cs⟩, ?_⟩
    simp [tryEncodings, decodeBytes, h1]
  | none =>
    cases h2 : utf8Decode bs with
    | some cs =>
      refine ⟨read_records ⟨cs⟩, ?_⟩
      simp [tryEncodings, decodeBytes, h1, h2]
    | none =>
      refine ⟨read_records ⟨bs.map (fun b => Char.ofNat b.val)⟩, ?_⟩
      simp [tryEncodings, decodeBytes, decodeLatin1, h1, h2]

/-- C4 counterexample: a record with no group field is bucketed under the
literal `"unbekannt"`, not under `"unknown"` as the claim states. -/
theorem C4_counterexample :
    bucketsOf [([] : Record)] = [("unbekannt", [[]])] ∧
      ("unbekannt" : String) ≠ "unknown" :=
  ⟨by decide, by decide⟩

/-- C4 (amended): a record whose group field is missing or trim-blank is
assigned to the bucket whose group key is the literal `"unbekannt"`. -/
theorem C4_unknown_bucket (records : List Record) (rec : Record) (hmem : rec ∈ records)
    (hblank : lookupAssoc rec GROUP_COLUMN = none ∨
      pyStrip (recGet rec GROUP_COLUMN "") = "") :
    groupKeyOf rec = "unbekannt" ∧
      rec ∈ getBucket (bucketsOf records) "unbekannt" := by
  have hkey : groupKeyOf rec = "unbekannt" := by
    rcases hblank with h | h
    · have hget : recGet rec GROUP_COLUMN "" = "" := by
        rw [recGet, h]
        rfl
      simp only [groupKeyOf, hget]
      decide
    · simp only [groupKeyOf, if_pos h]
  refine ⟨hkey, ?_⟩
  rw [getBucket_bucketsOf]
  exact List.mem_filter.mpr ⟨hmem, decide_eq_true hkey⟩

theorem C4_witness :
    groupKeyOf [(GROUP_COLUMN, " ")] = "unbekannt" ∧
      [(GROUP_COLUMN, " ")] ∈ getBucket (bucketsOf [[(GROUP_COLUMN, " ")]]) "unbekannt" :=
  C4_unknown_bucket [[(GROUP_COLUMN, " ")]] [(GROUP_COLUMN, " ")] (by decide)
    (Or.inr (by decide))

/-- C9: for a group whose key starts with `"FG"` the base-column schema is
the six base columns with the school-structure column inserted at the
fifth position (after birth date, before the special-needs flag); for any
other group it is exactly the six base columns. -/
theorem C9_base_schema (g : String) :
    (base_fields (is_fg_of g)).map Prod.snd
      = (if is_fg_of g then
          ["Anrede", "Name", "Vorname", "Geburtsdatum", "Schulgliederung",
           "Sonderpäd. Förderbedarf", "Rang"]
        else
          ["Anrede", "Name", "Vorname", "Geburtsdatum",
           "Sonderpäd. Förderbedarf", "Rang"]) ∧
    (base_fields true)[4]? = some FG_EXTRA_FIELD ∧
    base_fields false = BASE_FIELDS := by
  refine ⟨?_, by decide, by decide⟩
  by_cases h : is_fg_of g
  · rw [if_pos h, base_fields, if_pos h]
    decide
  · rw [if_neg h, base_fields, if_neg h]
    decide

/-- C7: the answer-column schema of a group equals the ordered union, in
first-seen order, of the decomposed column names over its records, and a
record lacking one of those columns renders an empty cell. -/
theorem C7_schema_and_empty_cells (records : List Record) (rec : Record) (c : String)
    (hc : c ∉ recNames rec) :
    all_answer_cols records = firstSeenDedup ((records.map recNames).flatten) ∧
    cellValue rec c = Value.str "" := by
  constructor
  · rw [firstSeenDedup, List.foldl_flatten, List.foldl_map, all_answer_cols]
    congr 1
    funext acc r
    rw [recNames, List.foldl_map]
  · rw [cellValue]
    have hc' : c ∉ (parse_answers (recGet rec GRADES_COLUMN "")).map Prod.fst := by
      rw [recNames] at hc
      exact hc
    have hnone : dictLast (parse_answers (recGet rec GRADES_COLUMN "")) c = none := by
      rw [dictLast]
      apply lookupAssoc_eq_none
      rw [List.map_reverse, List.mem_reverse]
      exact hc'
    rw [hnone]
    decide

theorem C7_witness :
    all_answer_cols [[(GRADES_COLUMN, "Kunst: 3")], [(GRADES_COLUMN, "Mathe: 2")]]
        = ["Kunst", "Mathe"] ∧
    cellValue [(GRADES_COLUMN, "Kunst: 3")] "Mathe" = Value.str "" := by
  have h := C7_schema_and_empty_cells
    [[(GRADES_COLUMN, "Kunst: 3")], [(GRADES_COLUMN, "Mathe: 2")]]
    [(GRADES_COLUMN, "Kunst: 3")] "Mathe" (by decide)
  exact ⟨h.1.trans (by decide), h.2⟩

/-- The `i`-th output pair of `parse_answers` renders the `i`-th
occurrence-annotated valid entry. -/
theorem parse_getElem (s : String) (i : Nat) (e : String × String × Nat)
    (hget : (occAnnotate (fun _ => 0) (validEntries s))[i]? = some e) :
    (parse_answers s)[i]? = some (renderEntry e) := by
  rw [parse_answers_eq_spec, answersSpec, List.getElem?_map, hget]
  rfl

/-- C6: an absent/empty/whitespace-only field yields the empty list; lines
lacking the `": "` separator are discarded without affecting the
occurrence numbering of later valid lines (the output renders exactly the
occurrence-annotated valid lines); and a non-grading key yields the raw
key itself on its 1st occurrence and `key (n)` on the nth (n ≥ 2), in
line order. -/
theorem C6_parser_lines (s : String) :
    (pyStrip s = "" → parse_answers s = []) ∧
    parse_answers s = (occAnnotate (fun _ => 0) (validEntries s)).map renderEntry ∧
    (∀ (i : Nat) (e : String × String × Nat),
      (occAnnotate (fun _ => 0) (validEntries s))[i]? = some e →
      e.1 ≠ BEWERTUNG_KEY →
      ((parse_answers s)[i]? = some (e.1, Value.str e.2.1) ∧ e.2.2 = 1) ∨
      ((parse_answers s)[i]? = some (e.1 ++ " (" ++ Nat.repr e.2.2 ++ ")", Value.str e.2.1)
        ∧ 2 ≤ e.2.2)) := by
  refine ⟨?_, parse_answers_eq_spec s, ?_⟩
  · intro h
    rw [parse_answers, if_pos h]
  · intro i e hget hkey
    have hpar := parse_getElem s i e hget
    have hocc : 1 ≤ e.2.2 := occAnnotate_occ_gt (List.getElem?_mem hget)
    by_cases h1 : e.2.2 = 1
    · left
      refine ⟨?_, h1⟩
      rw [hpar, renderEntry, colNameFor, if_neg hkey, if_pos h1, valueFor, if_neg hkey]
    · right
      refine ⟨?_, by omega⟩
      rw [hpar, renderEntry, colNameFor, if_neg hkey, if_neg h1, valueFor, if_neg hkey]

theorem C6_witness :
    parse_answers "  \n " = [] ∧
    parse_answers "kein Trenner\nKunst: 3\nKunst: 4"
      = [("Kunst", Value.str "3"), ("Kunst (2)", Value.str "4")] ∧
    (parse_answers "kein Trenner\nKunst: 3\nKunst: 4")[1]?
      = some ("Kunst (2)", Value.str "4") := by
  refine ⟨(C6_parser_lines "  \n ").1 (by decide), ?_, ?_⟩
  · exact (C6_parser_lines "kein Trenner\nKunst: 3\nKunst: 4").2.1.trans (by decide)
  · have h := (C6_parser_lines "kein Trenner\nKunst: 3\nKunst: 4").2.2 1
      ("Kunst", "4", 2) (by decide) (by decide)
    rcases h with ⟨h1, h2⟩ | ⟨h1, h2⟩
    · exact absurd h2 (by decide)
    · exact h1.trans (by decide)

/-- C5: for the grading key, the 1st occurrence is named `AV` and the 2nd
`SV`; the value is replaced by its numeric code exactly when the trimmed
value equals one of the five fixed grading phrases (e.g.
"entspricht den Erwartungen" becomes 30), and is kept unchanged
otherwise. -/
theorem C5_grading_key (s : String) (i : Nat) (e : String × String × Nat)
    (hget : (occAnnotate (fun _ => 0) (validEntries s))[i]? = some e)
    (hkey : e.1 = BEWERTUNG_KEY) :
    (e.2.2 = 1 → (parse_answers s)[i]? = some ("AV", valueFor BEWERTUNG_KEY e.2.1)) ∧
    (e.2.2 = 2 → (parse_answers s)[i]? = some ("SV", valueFor BEWERTUNG_KEY e.2.1)) ∧
    (∀ v n, (v, n) ∈ BEWERTUNG_WERTE → valueFor BEWERTUNG_KEY v = Value.int n) ∧
    (∀ v, v ∉ BEWERTUNG_WERTE.map Prod.fst → valueFor BEWERTUNG_KEY v = Value.str v) ∧
    valueFor BEWERTUNG_KEY "entspricht den Erwartungen" = Value.int 30 := by
  have hpar := parse_getElem s i e hget
  refine ⟨?_, ?_, ?_, ?_, by decide⟩
  · intro h1
    rw [hpar, renderEntry, hkey, h1,
      (by decide : colNameFor BEWERTUNG_KEY 1 = "AV")]
  · intro h2
    rw [hpar, renderEntry, hkey, h2,
      (by decide : colNameFor BEWERTUNG_KEY 2 = "SV")]
  · intro v n hvn
    fin_cases hvn <;> decide
  · intro v hv
    rw [valueFor, if_pos rfl, lookupAssoc_eq_none hv]

theorem C5_witness :
    (parse_answers ("Bitte geben Sie die Bewertung vom Zeugnis ein.: " ++
      "entspricht den Erwartungen\n" ++
      "Bitte geben Sie die Bewertung vom Zeugnis ein.: gut"))[0]?
      = some ("AV", Value.int 30) ∧
    (parse_answers ("Bitte geben Sie die Bewertung vom Zeugnis ein.: " ++
      "entspricht den Erwartungen\n" ++
      "Bitte geben Sie die Bewertung vom Zeugnis ein.: gut"))[1]?
      = some ("SV", Value.str "gut") := by
  have h0 := (C5_grading_key
    ("Bitte geben Sie die Bewertung vom Zeugnis ein.: " ++
      "entspricht den Erwartungen\n" ++
      "Bitte geben Sie die Bewertung vom Zeugnis ein.: gut") 0
    (BEWERTUNG_KEY, "entspricht den Erwartungen", 1) (by decide) rfl).1 rfl
  have h1 := (C5_grading_key
    ("Bitte geben Sie die Bewertung vom Zeugnis ein.: " ++
      "entspricht den Erwartungen\n" ++
      "Bitte geben Sie die Bewertung vom Zeugnis ein.: gut") 1
    (BEWERTUNG_KEY, "gut", 2) (by decide) rfl).2.1 rfl
  exact ⟨h0.trans (by decide), h1.trans (by decide)⟩

/-- C1 counterexample: on a field containing the grading key three times,
the 3rd occurrence's column name is `"Bewertung (3)"`, not the raw key
followed by `" (3)"` as the claim states. -/
theorem C1_counterexample :
    ((parse_answers ("Bitte geben Sie die Bewertung vom Zeugnis ein.: a\n" ++
        "Bitte geben Sie die Bewertung vom Zeugnis ein.: b\n" ++
        "Bitte geben Sie die Bewertung vom Zeugnis ein.: c")).map Prod.fst)[2]?
      = some "Bewertung (3)" ∧
    ("Bewertung (3)" : String)
      ≠ "Bitte geben Sie die Bewertung vom Zeugnis ein." ++ " (3)" :=
  ⟨by decide, by decide⟩

/-- C1 (amended): for the grading key's nth occurrence with n ≥ 3, the
output column name is the literal word `"Bewertung"` (not the raw key)
followed by `" (n)"`. -/
theorem C1_third_and_beyond (s : String) (i : Nat) (e : String × String × Nat)
    (hget : (occAnnotate (fun _ => 0) (validEntries s))[i]? = some e)
    (hkey : e.1 = BEWERTUNG_KEY) (hocc : 3 ≤ e.2.2) :
    (parse_answers s)[i]?
      = some ("Bewertung (" ++ Nat.repr e.2.2 ++ ")", valueFor BEWERTUNG_KEY e.2.1) := by
  have hpar := parse_getElem s i e hget
  have hren : BEWERTUNG_RENAME e.2.2 = none := by
    rw [BEWERTUNG_RENAME, if_neg (by omega), if_neg (by omega)]
  rw [hpar, renderEntry, hkey, colNameFor, if_pos rfl, hren]

theorem C1_witness :
    (parse_answers ("Bitte geben Sie die Bewertung vom Zeugnis ein.: a\n" ++
        "Bitte geben Sie die Bewertung vom Zeugnis ein.: b\n" ++
        "Bitte geben Sie die Bewertung vom Zeugnis ein.: c"))[2]?
      = some ("Bewertung (3)", Value.str "c") :=
  (C1_third_and_beyond ("Bitte geben Sie die Bewertung vom Zeugnis ein.: a\n" ++
      "Bitte geben Sie die Bewertung vom Zeugnis ein.: b\n" ++
      "Bitte geben Sie die Bewertung vom Zeugnis ein.: c") 2
    (BEWERTUNG_KEY, "c", 3) (by decide) rfl (by decide)).trans (by decide)

/-- C3 counterexample: column names within one record need not be unique —
a raw key that is literally `"a (2)"` collides with the numbered 2nd
occurrence of the raw key `"a"`. -/
theorem C3_counterexample :
    ¬ ((parse_answers "a (2): x\na: y\na: z").map Prod.fst).Nodup := by
  decide

/-- C3 (amended): within one record's decomposition the column names are
pairwise distinct, provided no raw key of the field is the grading key or
contains the character `'('` (otherwise collisions with the renaming /
numbering scheme are possible, as the counterexample shows). -/
theorem C3_names_nodup (s : String)
    (h : ∀ k ∈ (validEntries s).map Prod.fst, k ≠ BEWERTUNG_KEY ∧ '(' ∉ k.data) :
    ((parse_answers s).map Prod.fst).Nodup := by
  rw [parse_answers_eq_spec, answersSpec, List.map_map]
  have hp := occAnnotate_pairwise (fun _ => 0) (validEntries s)
  have hplain : ∀ e ∈ occAnnotate (fun _ => 0) (validEntries s), plainKey e.1 :=
    fun e he => h e.1 (occAnnotate_key_mem he)
  have hpw2 : (occAnnotate (fun _ => 0) (validEntries s)).Pairwise
      (fun e1 e2 => (renderEntry e1).1 ≠ (renderEntry e2).1) := by
    refine hp.imp_of_mem ?_
    intro e1 e2 h1 h2 hR heq
    obtain ⟨hk, hn⟩ := colNameFor_inj (hplain e1 h1) (hplain e2 h2) heq
    have := hR hk
    omega
  exact List.Pairwise.map _ (fun a b hab => hab) hpw2

theorem C3_witness :
    ((parse_answers "Kunst: 3\nMathe: 2\nKunst: 1").map Prod.fst).Nodup :=
  C3_names_nodup "Kunst: 3\nMathe: 2\nKunst: 1" (by decide)

/-- C2 counterexample: a record whose rank field is non-empty but not
parseable as a number makes the Print-Table Renderer's sort-key
computation raise (`int("x")` raises `ValueError`), so sorting is not
error-free as the claim states. -/
theorem C2_counterexample :
    latexSorted [[(RANG_FIELD, "x")]] = Except.error () := rfl

/-- C2 (amended): the Print-Table Renderer sorts by (numeric rank, then
lower-cased surname, then lower-cased given name); an absent or EMPTY rank
falls back to the sentinel 999, but a non-empty rank that does not parse
as an integer raises an error — sorting succeeds iff every rank parses. -/
theorem C2_latex_sort (rs : List Record) :
    ((∀ r ∈ rs, (latexRank r).isOk = true) →
      latexSorted rs = Except.ok (sortByKey latexKey rs) ∧
      (sortByKey latexKey rs).Perm rs ∧
      (sortByKey latexKey rs).Pairwise (fun a b => latexKey a ≤ latexKey b)) ∧
    ((∃ r ∈ rs, (latexRank r).isOk = false) → latexSorted rs = Except.error ()) ∧
    (∀ r : Record, recGet r RANG_FIELD "" = "" → latexRank r = Except.ok 999) := by
  refine ⟨?_, ?_, ?_⟩
  · intro h
    obtain ⟨ys, hys⟩ := exceptMapM_ok latexRank rs h
    refine ⟨?_, sortByKey_perm latexKey rs, sortByKey_pairwise latexKey rs⟩
    rw [latexSorted, hys]
  · intro h
    rw [latexSorted, exceptMapM_error latexRank rs h]
  · intro r h
    simp only [latexRank]
    rw [if_pos h]

theorem C2_witness :
    latexSorted [[(RANG_FIELD, "2")]] = Except.ok [[(RANG_FIELD, "2")]] ∧
    latexSorted [[(RANG_FIELD, "x")]] = Except.error () := by
  constructor
  · have h := (C2_latex_sort [[(RANG_FIELD, "2")]]).1 (by decide)
    rw [h.1, sortByKey, List.mergeSort_singleton]
  · exact (C2_latex_sort [[(RANG_FIELD, "x")]]).2.1
      ⟨[(RANG_FIELD, "x")], List.mem_cons_self _ _, by decide⟩

/-- C8: group buckets are processed in ascending lexicographic order of
the group key, and each bucket is the stable sort, by (lower-cased
surname, lower-cased given name), of the records carrying that group key
in file order — in particular the subsequence of records with any fixed
name key keeps its original relative file order. -/
theorem C8_group_order_and_stability (records : List Record) :
    ((process_groups records).map Prod.fst).Pairwise (fun a b => a < b) ∧
    (∀ g bucket, (g, bucket) ∈ process_groups records →
      bucket = sortRecordsByName (records.filter (fun r => decide (groupKeyOf r = g))) ∧
      bucket.Perm (records.filter (fun r => decide (groupKeyOf r = g))) ∧
      bucket.Pairwise (fun a b => nameKey a ≤ nameKey b) ∧
      (∀ k, bucket.filter (fun r => decide (nameKey r = k))
        = (records.filter (fun r => decide (groupKeyOf r = g))).filter
            (fun r => decide (nameKey r = k)))) := by
  constructor
  · have hpw : (sortByKey Prod.fst (bucketsOf records)).Pairwise
        (fun a b : String × List Record => a.1 ≤ b.1) :=
      sortByKey_pairwise Prod.fst (bucketsOf records)
    have hnd : ((sortByKey Prod.fst (bucketsOf records)).map Prod.fst).Pairwise
        (fun a b => a ≠ b) := by
      have hperm : ((sortByKey Prod.fst (bucketsOf records)).map Prod.fst).Perm
          ((bucketsOf records).map Prod.fst) :=
        (sortByKey_perm Prod.fst (bucketsOf records)).map Prod.fst
      exact hperm.nodup_iff.mpr (bucketsOf_keys_nodup records)
    have hmapeq : (process_groups records).map Prod.fst
        = (sortByKey Prod.fst (bucketsOf records)).map Prod.fst := by
      rw [process_groups, List.map_map]
      rfl
    rw [hmapeq]
    have hle : ((sortByKey Prod.fst (bucketsOf records)).map Prod.fst).Pairwise
        (fun a b => a ≤ b) := List.pairwise_map.mpr hpw
    exact (hle.and hnd).imp (fun h => lt_of_le_of_ne h.1 h.2)
  · intro g bucket hmem
    rw [process_groups] at hmem
    obtain ⟨gb, hgb, heq⟩ := List.mem_map.mp hmem
    obtain ⟨g0, b0⟩ := gb
    obtain ⟨rfl, rfl⟩ : g0 = g ∧ sortRecordsByName b0 = bucket := Prod.ext_iff.mp heq
    have hb0mem : (g0, b0) ∈ bucketsOf records :=
      (sortByKey_perm Prod.fst (bucketsOf records)).mem_iff.mp hgb
    have hb0 : b0 = records.filter (fun r => decide (groupKeyOf r = g0)) := by
      have hl := lookupAssoc_of_mem_nodup (bucketsOf_keys_nodup records) hb0mem
      have hgb2 := getBucket_bucketsOf records g0
      rw [getBucket, hl] at hgb2
      exact hgb2
    refine ⟨by rw [hb0], ?_, ?_, ?_⟩
    · rw [hb0, sortRecordsByName]
      exact sortByKey_perm nameKey _
    · rw [sortRecordsByName]
      exact sortByKey_pairwise nameKey _
    · intro k
      rw [hb0, sortRecordsByName]
      exact sortByKey_filter nameKey _ _
        (fun a b ha hb => (of_decide_eq_true ha).trans (of_decide_eq_true hb).symm)

theorem C8_witness :
    ([[(GROUP_COLUMN, "FG1")]] : List Record).Perm [[(GROUP_COLUMN, "FG1")]] ∧
    ([[(GROUP_COLUMN, "FG1")]] : List Record).Pairwise
      (fun a b => nameKey a ≤ nameKey b) := by
  have hb : bucketsOf [[(GROUP_COLUMN, "FG1")]]
      = [("FG1", [[(GROUP_COLUMN, "FG1")]])] := by decide
  have hpg : process_groups [[(GROUP_COLUMN, "FG1")]]
      = [("FG1", [[(GROUP_COLUMN, "FG1")]])] := by
    simp only [process_groups, hb, sortByKey, sortRecordsByName,
      List.mergeSort_singleton, List.map_cons, List.map_nil]
  have h := (C8_group_order_and_stability [[(GROUP_COLUMN, "FG1")]]).2 "FG1"
    [[(GROUP_COLUMN, "FG1")]] (by rw [hpg]; exact List.mem_cons_self _ _)
  have hfil : ([[(GROUP_COLUMN, "FG1")]] : List Record).filter
      (fun r => decide (groupKeyOf r = "FG1")) = [[(GROUP_COLUMN, "FG1")]] := by decide
  exact ⟨hfil ▸ h.2.1, h.2.2.1⟩

/-! ### Concrete sanity examples -/

example : parse_answers "Kunst: 3\nBewertung: gut\nBewertung: sehr gut" =
    [("Kunst", Value.str "3"), ("Bewertung", Value.str "gut"),
     ("Bewertung (2)", Value.str "sehr gut")] := by decide

example :
    parse_answers ("Bitte geben Sie die Bewertung vom Zeugnis ein.: entspricht den Erwartungen\n" ++
      "Bitte geben Sie die Bewertung vom Zeugnis ein.: gut") =
    [("AV", Value.int 30), ("SV", Value.str "gut")] := by decide
